import Mathlib

/-!
Verification of the Room core of SparkScratch-P/cloud-server.

The embedding follows `src/Room.js` and `src/checkers.js`. A JS `Map` is
modelled as an association list in insertion order with unique keys
(`Map.set` updates in place when the key is present, otherwise appends;
`Map.size` is the number of entries). Each Room method is modelled as a
function `Room → ... → Room × Option RoomError`: the first component is
the state of the room when the method returns or throws, the second is
`some e` exactly when the method throws. In the source every `throw`
happens before any mutation, so the returned state at an error is the
input state, as transcribed here statement by statement.

Clients are opaque references with a `username` field; JS compares them
by reference identity (`includes` / `indexOf` use `===`), modelled by
structural equality on an opaque numeric reference plus the username.
-/

/-- Constant `MAX_VARIABLES = 10` from Room.js. -/
def MAX_VARIABLES : Nat := 10

/-- Constant `MAX_VALUE_LENGTH = 1000` from Room.js. -/
def MAX_VALUE_LENGTH : Nat := 1000

/-- Constant `MAX_NAME_LENGTH = 100` from Room.js. -/
def MAX_NAME_LENGTH : Nat := 100

/-- Constant `NAME_REQUIRED_PREFIX = "☁ "` from Room.js (named differently here). -/
def NAME_REQUIRED_START : String := "☁ "

/-- Models `String.prototype.startsWith`, stated on the character lists of the
two strings (equivalent to `String.startsWith`, but reducible in the
kernel). -/
def strStartsWith (s p : String) : Bool :=
  p.data.isPrefixOf s.data

/-- Models `String.prototype.toLowerCase` (character-wise lower-casing). -/
def jsToLower (s : String) : String :=
  String.mk (s.data.map Char.toLower)

/-- Predicate `isValidVariableName` from Room.js. The `typeof name === "string"`
conjunct is captured by the Lean type of `name`. -/
def isValidVariableName (name : String) : Bool :=
  strStartsWith name NAME_REQUIRED_START && name.length < MAX_NAME_LENGTH

/-- Predicate `isValidValue` from Room.js. The `typeof value === "string"`
conjunct is captured by the Lean type of `value`. -/
def isValidValue (value : String) : Bool :=
  value.length < MAX_VALUE_LENGTH

/-- A client reference: an opaque identity plus the `username` attribute
read by `hasClientWithUsername`. -/
structure Client where
  ref : Nat
  username : String
deriving DecidableEq, Repr

/-- Models `Map.prototype.has` on the association-list model. -/
def mapHas (m : List (String × String)) (k : String) : Bool :=
  m.any (fun p => p.1 == k)

/-- Models `Map.prototype.set`: update in place when the key is present
(insertion order kept), append otherwise. -/
def mapSet (m : List (String × String)) (k v : String) : List (String × String) :=
  if mapHas m k then m.map (fun p => if p.1 == k then (k, v) else p)
  else m ++ [(k, v)]

/-- Models `Map.prototype.get` (as an `Option`). -/
def mapGet (m : List (String × String)) (k : String) : Option String :=
  (m.find? (fun p => p.1 == k)).map Prod.snd

/-- The error conditions thrown by Room methods, per Room.js and the
taxonomy of the design document. -/
inductive RoomError where
  | DuplicateClient
  | ClientNotFound
  | InvalidName
  | InvalidValue
  | VariableExists
  | VariableNotFound
  | CapacityExceeded
deriving DecidableEq, Repr

/-- The Room state: `this.variables` (a `Map<string, string>`) and
`this.clients` (a `Client[]`). -/
structure Room where
  vars : List (String × String)
  clients : List Client
deriving DecidableEq, Repr

/-- Constructor `new Room()`: empty map, empty client list. -/
def newRoom : Room := { vars := [], clients := [] }

/-- Method `Room.prototype.addClient`. -/
def Room.addClient (r : Room) (c : Client) : Room × Option RoomError :=
  if r.clients.contains c then (r, some .DuplicateClient)
  else ({ r with clients := r.clients ++ [c] }, none)

/-- Models `Array.prototype.splice(indexOf(c), 1)`: remove the first occurrence. -/
def removeFirst : List Client → Client → List Client
  | [], _ => []
  | x :: xs, c => if x = c then xs else x :: removeFirst xs c

/-- Method `Room.prototype.removeClient`: `indexOf` then `splice(index, 1)`;
throws when `indexOf` gives `-1`, i.e. the client is not a member. -/
def Room.removeClient (r : Room) (c : Client) : Room × Option RoomError :=
  if r.clients.contains c then ({ r with clients := removeFirst r.clients c }, none)
  else (r, some .ClientNotFound)

/-- Method `Room.prototype.getClients`. -/
def Room.getClients (r : Room) : List Client := r.clients

/-- Method `Room.prototype.getAllVariables`. -/
def Room.getAllVariables (r : Room) : List (String × String) := r.vars

/-- Method `Room.prototype.createVar`: the four checks in source order, then
`this.variables.set(name, value)`. -/
def Room.createVar (r : Room) (name value : String) : Room × Option RoomError :=
  if ¬ isValidVariableName name then (r, some .InvalidName)
  else if ¬ isValidValue value then (r, some .InvalidValue)
  else if mapHas r.vars name then (r, some .VariableExists)
  else if r.vars.length ≥ MAX_VARIABLES then (r, some .CapacityExceeded)
  else ({ r with vars := mapSet r.vars name value }, none)

/-- Method `Room.prototype.set`: the three checks in source order, then
`this.variables.set(name, value)`. -/
def Room.set (r : Room) (name value : String) : Room × Option RoomError :=
  if ¬ isValidVariableName name then (r, some .InvalidName)
  else if ¬ isValidValue value then (r, some .InvalidValue)
  else if ¬ mapHas r.vars name then (r, some .VariableNotFound)
  else ({ r with vars := mapSet r.vars name value }, none)

/-- Method `Room.prototype.hasClientWithUsername`: lower-case both sides and
scan `getClients()`. -/
def Room.hasClientWithUsername (r : Room) (username : String) : Bool :=
  r.getClients.any (fun i => jsToLower i.username == jsToLower username)

/-- One call to a mutating Room method, for stating trace invariants. -/
inductive Op where
  | addClient (c : Client)
  | removeClient (c : Client)
  | createVar (name value : String)
  | set (name value : String)
deriving DecidableEq, Repr

/-- Run one method call: resulting state and thrown error, if any. -/
def execOp (r : Room) : Op → Room × Option RoomError
  | .addClient c => r.addClient c
  | .removeClient c => r.removeClient c
  | .createVar n v => r.createVar n v
  | .set n v => r.set n v

/-- The state after one call (a thrown error leaves the state as it was
at the throw). -/
def applyOp (r : Room) (op : Op) : Room := (execOp r op).1

/-- The state after a sequence of calls. -/
def applyOps (r : Room) (ops : List Op) : Room := ops.foldl applyOp r

/-- A JavaScript value as classified by `typeof` and truthiness, the only
observations `checkers.js` makes. Objects, arrays and functions are opaque
references. -/
inductive JSValue where
  | null
  | undefined
  | boolean (b : Bool)
  | number (n : Int)
  | str (s : String)
  | object (ref : Nat)
  | array (ref : Nat)
  | func (ref : Nat)
deriving DecidableEq, Repr

/-- The JS `typeof` operator on the model (note `typeof null` is
`"object"`, and arrays are of type `"object"`). -/
def typeofStr : JSValue → String
  | .null => "object"
  | .undefined => "undefined"
  | .boolean _ => "boolean"
  | .number _ => "number"
  | .str _ => "string"
  | .object _ => "object"
  | .array _ => "object"
  | .func _ => "function"

/-- JS truthiness (`!!x`): falsy values are `null`, `undefined`, `false`,
`0` and the empty string; every object, array or function is truthy. -/
def truthy : JSValue → Bool
  | .null => false
  | .undefined => false
  | .boolean b => b
  | .number n => n != 0
  | .str s => s != ""
  | .object _ => true
  | .array _ => true
  | .func _ => true

/-- Predicate `isValidVariableMap` from checkers.js:
`!!object && typeof object === "object"`. -/
def isValidVariableMap (object : JSValue) : Bool :=
  truthy object && (typeofStr object == "object")

/-! ### Basic lemmas about the Map model -/

lemma mapHas_iff (m : List (String × String)) (k : String) :
    mapHas m k = true ↔ ∃ p ∈ m, p.1 = k := by
  simp [mapHas, List.any_eq_true, beq_iff_eq]

lemma mapSet_of_has (m : List (String × String)) (k v : String)
    (h : mapHas m k = true) :
    mapSet m k v = m.map (fun p => if p.1 == k then (k, v) else p) := by
  simp [mapSet, h]

lemma mapSet_of_not_has (m : List (String × String)) (k v : String)
    (h : mapHas m k = false) :
    mapSet m k v = m ++ [(k, v)] := by
  simp [mapSet, h]

lemma mapSet_length_of_has (m : List (String × String)) (k v : String)
    (h : mapHas m k = true) :
    (mapSet m k v).length = m.length := by
  simp [mapSet, h]

lemma mapSet_keys (m : List (String × String)) (k v : String) :
    (mapSet m k v).map Prod.fst =
      if mapHas m k then m.map Prod.fst else m.map Prod.fst ++ [k] := by
  unfold mapSet
  split
  · rw [List.map_map]
    refine List.map_congr_left ?_
    intro p hp
    by_cases h : p.1 = k <;> simp [h]
  · simp

lemma mapHas_append_self (m : List (String × String)) (k v : String) :
    mapHas (m ++ [(k, v)]) k = true := by
  simp [mapHas]

lemma mapGet_map_update (m : List (String × String)) (k v : String)
    (h : mapHas m k = true) :
    mapGet (m.map (fun p => if p.1 == k then (k, v) else p)) k = some v := by
  induction m with
  | nil => simp [mapHas] at h
  | cons p rest ih =>
    rw [List.map_cons]
    by_cases hp : p.1 = k
    · have hif : (if p.1 == k then (k, v) else p) = (k, v) := by simp [hp]
      rw [hif]
      unfold mapGet
      rw [List.find?_cons_of_pos _ (by simp)]
      rfl
    · have hif : (if p.1 == k then (k, v) else p) = p := by simp [hp]
      rw [hif]
      have h' : mapHas rest k = true := by simpa [mapHas, hp] using h
      unfold mapGet
      rw [List.find?_cons_of_neg _ (by simp [hp])]
      exact ih h'

lemma mapGet_mapSet_self (m : List (String × String)) (k v : String)
    (h : mapHas m k = true) :
    mapGet (mapSet m k v) k = some v := by
  rw [mapSet_of_has m k v h]
  exact mapGet_map_update m k v h

/-! ### Success and failure characterizations of the Room methods -/

lemma createVar_ok_iff (r : Room) (n v : String) :
    (r.createVar n v).2 = none ↔
      isValidVariableName n = true ∧ isValidValue v = true ∧
      mapHas r.vars n = false ∧ r.vars.length < MAX_VARIABLES := by
  unfold Room.createVar
  split_ifs with h1 h2 h3 h4 <;> simp_all <;> omega

lemma createVar_ok_vars (r : Room) (n v : String)
    (h : (r.createVar n v).2 = none) :
    (r.createVar n v).1.vars = r.vars ++ [(n, v)] := by
  unfold Room.createVar at h ⊢
  split_ifs at h ⊢ with h1 h2 h3 h4 <;> simp_all
  exact mapSet_of_not_has r.vars n v (by simpa using h3)

lemma set_ok_iff (r : Room) (n v : String) :
    (r.set n v).2 = none ↔
      isValidVariableName n = true ∧ isValidValue v = true ∧
      mapHas r.vars n = true := by
  unfold Room.set
  split_ifs with h1 h2 h3 <;> simp_all

lemma set_ok_vars (r : Room) (n v : String)
    (h : (r.set n v).2 = none) :
    (r.set n v).1.vars = mapSet r.vars n v := by
  unfold Room.set at h ⊢
  split_ifs at h ⊢ <;> simp_all

lemma removeFirst_append_self (l : List Client) (c : Client)
    (h : l.contains c = false) :
    removeFirst (l ++ [c]) c = l := by
  induction l with
  | nil => simp [removeFirst]
  | cons x xs ih =>
    have hx : ¬ x = c := by
      intro hxc
      simp [hxc] at h
    have hxs : xs.contains c = false := by
      simp [List.contains_cons] at h
      simpa using h.2
    simp [removeFirst, hx, ih hxs]

/-! ### Per-step preservation lemmas -/

lemma addClient_vars (r : Room) (c : Client) : (r.addClient c).1.vars = r.vars := by
  unfold Room.addClient
  split_ifs <;> rfl

lemma removeClient_vars (r : Room) (c : Client) : (r.removeClient c).1.vars = r.vars := by
  unfold Room.removeClient
  split_ifs <;> rfl

lemma createVar_vars_cases (r : Room) (n v : String) :
    (r.createVar n v).1.vars = r.vars ∨
      (mapHas r.vars n = false ∧ r.vars.length < MAX_VARIABLES ∧
        (r.createVar n v).1.vars = r.vars ++ [(n, v)]) := by
  unfold Room.createVar
  split_ifs with h1 h2 h3 h4
  all_goals try exact Or.inl rfl
  refine Or.inr ⟨by simpa using h3, by omega, ?_⟩
  exact mapSet_of_not_has r.vars n v (by simpa using h3)

lemma set_vars_cases (r : Room) (n v : String) :
    (r.set n v).1.vars = r.vars ∨
      (mapHas r.vars n = true ∧ (r.set n v).1.vars = mapSet r.vars n v) := by
  unfold Room.set
  split_ifs with h1 h2 h3
  all_goals try exact Or.inl rfl
  exact Or.inr ⟨by simpa using h3, rfl⟩

lemma applyOp_vars_length_le (r : Room) (op : Op)
    (h : r.vars.length ≤ MAX_VARIABLES) :
    (applyOp r op).vars.length ≤ MAX_VARIABLES := by
  cases op with
  | addClient c => simpa [applyOp, execOp, addClient_vars] using h
  | removeClient c => simpa [applyOp, execOp, removeClient_vars] using h
  | createVar n v =>
    rcases createVar_vars_cases r n v with hc | ⟨_, hlt, hc⟩
    · simpa [applyOp, execOp, hc] using h
    · simp only [applyOp, execOp, hc, List.length_append, List.length_singleton]
      omega
  | set n v =>
    rcases set_vars_cases r n v with hc | ⟨hhas, hc⟩
    · simpa [applyOp, execOp, hc] using h
    · simp only [applyOp, execOp, hc, mapSet_length_of_has r.vars n v hhas]
      exact h

lemma applyOps_vars_length_le (ops : List Op) (r : Room)
    (h : r.vars.length ≤ MAX_VARIABLES) :
    (applyOps r ops).vars.length ≤ MAX_VARIABLES := by
  induction ops generalizing r with
  | nil => simpa [applyOps] using h
  | cons op rest ih =>
    simpa [applyOps, List.foldl_cons] using ih (applyOp r op) (applyOp_vars_length_le r op h)

/-- Every entry of the map passed both Room.js validity checks. -/
def GoodVars (m : List (String × String)) : Prop :=
  ∀ p ∈ m, isValidVariableName p.1 = true ∧ isValidValue p.2 = true

lemma createVar_checks (r : Room) (n v : String)
    (h : (r.createVar n v).1.vars ≠ r.vars) :
    isValidVariableName n = true ∧ isValidValue v = true := by
  unfold Room.createVar at h
  split_ifs at h with h1 h2 h3 h4
  all_goals simp_all

lemma set_checks (r : Room) (n v : String)
    (h : (r.set n v).1.vars ≠ r.vars) :
    isValidVariableName n = true ∧ isValidValue v = true := by
  unfold Room.set at h
  split_ifs at h with h1 h2 h3
  all_goals simp_all

lemma goodVars_mapSet (m : List (String × String)) (n v : String)
    (hn : isValidVariableName n = true) (hv : isValidValue v = true)
    (h : GoodVars m) : GoodVars (mapSet m n v) := by
  intro p hp
  unfold mapSet at hp
  split_ifs at hp with hhas
  · obtain ⟨q, hq, hfq⟩ := List.mem_map.mp hp
    by_cases hqk : q.1 = n
    · simp [hqk] at hfq
      subst hfq
      exact ⟨hn, hv⟩
    · simp [hqk] at hfq
      subst hfq
      exact h q hq
  · rcases List.mem_append.mp hp with hin | hin
    · exact h p hin
    · rcases List.mem_singleton.mp hin with rfl
      exact ⟨hn, hv⟩

lemma applyOp_goodVars (r : Room) (op : Op) (h : GoodVars r.vars) :
    GoodVars (applyOp r op).vars := by
  cases op with
  | addClient c => simpa [applyOp, execOp, addClient_vars] using h
  | removeClient c => simpa [applyOp, execOp, removeClient_vars] using h
  | createVar n v =>
    by_cases heq : (r.createVar n v).1.vars = r.vars
    · simpa [applyOp, execOp, heq] using h
    · obtain ⟨hn, hv⟩ := createVar_checks r n v heq
      rcases createVar_vars_cases r n v with hc | ⟨_, _, hc⟩
      · exact absurd hc heq
      · simp only [applyOp, execOp, hc]
        intro p hp
        rcases List.mem_append.mp hp with hin | hin
        · exact h p hin
        · rcases List.mem_singleton.mp hin with rfl
          exact ⟨hn, hv⟩
  | set n v =>
    by_cases heq : (r.set n v).1.vars = r.vars
    · simpa [applyOp, execOp, heq] using h
    · obtain ⟨hn, hv⟩ := set_checks r n v heq
      rcases set_vars_cases r n v with hc | ⟨_, hc⟩
      · exact absurd hc heq
      · simp only [applyOp, execOp, hc]
        exact goodVars_mapSet r.vars n v hn hv h

lemma applyOps_goodVars (ops : List Op) (r : Room) (h : GoodVars r.vars) :
    GoodVars (applyOps r ops).vars := by
  induction ops generalizing r with
  | nil => simpa [applyOps] using h
  | cons op rest ih =>
    simpa [applyOps, List.foldl_cons] using ih (applyOp r op) (applyOp_goodVars r op h)

lemma mapSet_keys_mono (m : List (String × String)) (k v n : String)
    (h : n ∈ m.map Prod.fst) : n ∈ (mapSet m k v).map Prod.fst := by
  rw [mapSet_keys]
  split <;> simp_all

lemma applyOp_keys_mono (r : Room) (op : Op) (n : String)
    (h : n ∈ r.vars.map Prod.fst) : n ∈ (applyOp r op).vars.map Prod.fst := by
  cases op with
  | addClient c => simpa [applyOp, execOp, addClient_vars] using h
  | removeClient c => simpa [applyOp, execOp, removeClient_vars] using h
  | createVar nm v =>
    rcases createVar_vars_cases r nm v with hc | ⟨_, _, hc⟩ <;>
      simp only [applyOp, execOp, hc] <;> simp_all
  | set nm v =>
    rcases set_vars_cases r nm v with hc | ⟨_, hc⟩
    · simpa [applyOp, execOp, hc] using h
    · simp only [applyOp, execOp, hc]
      exact mapSet_keys_mono r.vars nm v n h

lemma applyOps_keys_mono (ops : List Op) (r : Room) (n : String)
    (h : n ∈ r.vars.map Prod.fst) : n ∈ (applyOps r ops).vars.map Prod.fst := by
  induction ops generalizing r with
  | nil => simpa [applyOps] using h
  | cons op rest ih =>
    simpa [applyOps, List.foldl_cons] using ih (applyOp r op) (applyOp_keys_mono r op n h)

/-! ### Failure leaves the state untouched (per method) -/

lemma addClient_fail_eq (r : Room) (c : Client) (e : RoomError)
    (h : (r.addClient c).2 = some e) : (r.addClient c).1 = r := by
  unfold Room.addClient at h ⊢
  split_ifs at h ⊢ <;> simp_all

lemma removeClient_fail_eq (r : Room) (c : Client) (e : RoomError)
    (h : (r.removeClient c).2 = some e) : (r.removeClient c).1 = r := by
  unfold Room.removeClient at h ⊢
  split_ifs at h ⊢ <;> simp_all

lemma createVar_fail_eq (r : Room) (n v : String) (e : RoomError)
    (h : (r.createVar n v).2 = some e) : (r.createVar n v).1 = r := by
  unfold Room.createVar at h ⊢
  split_ifs at h ⊢ <;> simp_all

lemma set_fail_eq (r : Room) (n v : String) (e : RoomError)
    (h : (r.set n v).2 = some e) : (r.set n v).1 = r := by
  unfold Room.set at h ⊢
  split_ifs at h ⊢ <;> simp_all

/-! ### The claims -/

/-- C1: for every sequence of `addClient`, `removeClient`, `createVar` and
`set` calls starting from a freshly constructed Room, the variables map
never holds more than 10 entries. -/
theorem claim_vars_size_le_max (ops : List Op) :
    (applyOps newRoom ops).vars.length ≤ MAX_VARIABLES :=
  applyOps_vars_length_le ops newRoom (by simp [newRoom])

/-- C2: starting from a fresh Room, every key in the variables map starts
with the two-character sentinel `"☁ "` and has length < 100, and every
stored value has length < 1000 (values are strings by type). -/
theorem claim_vars_shape (ops : List Op) :
    NAME_REQUIRED_START.length = 2 ∧
    ∀ p ∈ (applyOps newRoom ops).vars,
      strStartsWith p.1 NAME_REQUIRED_START = true ∧
      p.1.length < MAX_NAME_LENGTH ∧ p.2.length < MAX_VALUE_LENGTH := by
  refine ⟨by decide, ?_⟩
  intro p hp
  have hgood : GoodVars (applyOps newRoom ops).vars :=
    applyOps_goodVars ops newRoom (by intro p hp; simp [newRoom] at hp)
  obtain ⟨hn, hv⟩ := hgood p hp
  unfold isValidVariableName at hn
  rw [Bool.and_eq_true] at hn
  refine ⟨hn.1, ?_, ?_⟩
  · simpa using hn.2
  · simpa [isValidValue] using hv

/-- C2 witness. -/
theorem claim_vars_shape_witness :
    NAME_REQUIRED_START.length = 2 ∧
    (strStartsWith "☁ x" NAME_REQUIRED_START = true ∧
      ("☁ x" : String).length < MAX_NAME_LENGTH ∧
      ("5" : String).length < MAX_VALUE_LENGTH) :=
  ⟨(claim_vars_shape [Op.createVar "☁ x" "5"]).1,
    (claim_vars_shape [Op.createVar "☁ x" "5"]).2 ("☁ x", "5") (by decide)⟩

/-- C4: whenever a Room operation fails (throws), the state it leaves
behind is exactly the state before the call. -/
theorem claim_failure_leaves_state (r : Room) (op : Op) (e : RoomError)
    (h : (execOp r op).2 = some e) : (execOp r op).1 = r := by
  cases op with
  | addClient c => exact addClient_fail_eq r c e h
  | removeClient c => exact removeClient_fail_eq r c e h
  | createVar n v => exact createVar_fail_eq r n v e h
  | set n v => exact set_fail_eq r n v e h

/-- C4 witness. -/
theorem claim_failure_leaves_state_witness :
    (execOp newRoom (Op.removeClient ⟨0, "a"⟩)).1 = newRoom :=
  claim_failure_leaves_state newRoom (Op.removeClient ⟨0, "a"⟩)
    RoomError.ClientNotFound (by decide)

/-- C5: the error raised by `createVar` is determined by the fixed
precedence InvalidName, then InvalidValue, then VariableExists, then
CapacityExceeded, as a function of the checks alone. -/
theorem claim_createVar_error_precedence (r : Room) (n v : String) :
    ((r.createVar n v).2 = some RoomError.InvalidName ↔
      isValidVariableName n = false) ∧
    ((r.createVar n v).2 = some RoomError.InvalidValue ↔
      isValidVariableName n = true ∧ isValidValue v = false) ∧
    ((r.createVar n v).2 = some RoomError.VariableExists ↔
      isValidVariableName n = true ∧ isValidValue v = true ∧
      mapHas r.vars n = true) ∧
    ((r.createVar n v).2 = some RoomError.CapacityExceeded ↔
      isValidVariableName n = true ∧ isValidValue v = true ∧
      mapHas r.vars n = false ∧ MAX_VARIABLES ≤ r.vars.length) ∧
    ((r.createVar n v).2 = none ↔
      isValidVariableName n = true ∧ isValidValue v = true ∧
      mapHas r.vars n = false ∧ r.vars.length < MAX_VARIABLES) := by
  unfold Room.createVar
  split_ifs with h1 h2 h3 h4 <;>
    refine ⟨?_, ?_, ?_, ?_, ?_⟩ <;> simp_all <;> omega

/-- C9: no operation ever removes a variable: every key present before a
sequence of operations is still present after it. -/
theorem claim_keys_only_grow (r : Room) (ops : List Op) (n : String)
    (h : n ∈ r.vars.map Prod.fst) :
    n ∈ (applyOps r ops).vars.map Prod.fst :=
  applyOps_keys_mono ops r n h

/-- C9 witness. -/
theorem claim_keys_only_grow_witness :
    "☁ x" ∈ (applyOps (Room.mk [("☁ x", "5")] []) [Op.set "☁ x" "7"]).vars.map Prod.fst :=
  claim_keys_only_grow (Room.mk [("☁ x", "5")] []) [Op.set "☁ x" "7"] "☁ x" (by decide)

/-- C3 counterexample: `"score"` is absent from the map of a fresh Room, yet
`set("score", "0")` throws InvalidName, not VariableNotFound (the name
check runs first). -/
theorem claim_set_unknown_cex :
    mapHas newRoom.vars "score" = false ∧
    (newRoom.set "score" "0").2 = some RoomError.InvalidName ∧
    (newRoom.set "score" "0").2 ≠ some RoomError.VariableNotFound := by
  refine ⟨by decide, by decide, by decide⟩

/-- C3 (amended): for a name absent from the map, `set` always fails and
leaves the Room unchanged, and the failure is VariableNotFound whenever
the name and value pass the validity checks (otherwise it is the
corresponding validity error). -/
theorem claim_set_unknown (r : Room) (n v : String)
    (hn : isValidVariableName n = true) (hv : isValidValue v = true)
    (habs : mapHas r.vars n = false) :
    (r.set n v).2 = some RoomError.VariableNotFound ∧ (r.set n v).1 = r := by
  unfold Room.set
  split_ifs with h1 h2 h3 <;> simp_all

/-- C3 witness. -/
theorem claim_set_unknown_witness :
    (newRoom.set "☁ x" "0").2 = some RoomError.VariableNotFound ∧
    (newRoom.set "☁ x" "0").1 = newRoom :=
  claim_set_unknown newRoom "☁ x" "0" (by decide) (by decide) (by decide)

/-- C6: after a successful `createVar(n, v)`, a `set(n, v2)` with a valid
value succeeds, `getAllVariables()` maps `n` to `v2`, and the insertion
order of the keys is unaffected by the `set`. -/
theorem claim_createVar_then_set (r : Room) (n v v2 : String)
    (hv2 : isValidValue v2 = true)
    (hc : (r.createVar n v).2 = none) :
    (((r.createVar n v).1).set n v2).2 = none ∧
    mapGet ((((r.createVar n v).1).set n v2).1.getAllVariables) n = some v2 ∧
    ((((r.createVar n v).1).set n v2).1.getAllVariables).map Prod.fst =
      ((r.createVar n v).1.getAllVariables).map Prod.fst := by
  obtain ⟨hn, hv, hhas, hlen⟩ := (createVar_ok_iff r n v).mp hc
  have hvars : (r.createVar n v).1.vars = r.vars ++ [(n, v)] :=
    createVar_ok_vars r n v hc
  have hhas1 : mapHas (r.createVar n v).1.vars n = true := by
    rw [hvars]
    exact mapHas_append_self r.vars n v
  have hset : (((r.createVar n v).1).set n v2).2 = none :=
    (set_ok_iff _ n v2).mpr ⟨hn, hv2, hhas1⟩
  have hsvars : (((r.createVar n v).1).set n v2).1.vars =
      mapSet (r.createVar n v).1.vars n v2 := set_ok_vars _ n v2 hset
  refine ⟨hset, ?_, ?_⟩
  · rw [Room.getAllVariables, hsvars]
    exact mapGet_mapSet_self _ n v2 hhas1
  · rw [Room.getAllVariables, Room.getAllVariables, hsvars, mapSet_keys]
    simp [hhas1]

/-- C6 witness. -/
theorem claim_createVar_then_set_witness :
    (((newRoom.createVar "☁ x" "0").1).set "☁ x" "1").2 = none ∧
    mapGet ((((newRoom.createVar "☁ x" "0").1).set "☁ x" "1").1.getAllVariables) "☁ x" =
      some "1" ∧
    ((((newRoom.createVar "☁ x" "0").1).set "☁ x" "1").1.getAllVariables).map Prod.fst =
      ((newRoom.createVar "☁ x" "0").1.getAllVariables).map Prod.fst :=
  claim_createVar_then_set newRoom "☁ x" "0" "1" (by decide) (by decide)

/-- C7: for a client not currently a member, `addClient` then
`removeClient` on the same reference both succeed and restore the prior
membership sequence exactly. -/
theorem claim_add_then_remove (r : Room) (c : Client)
    (h : r.clients.contains c = false) :
    (r.addClient c).2 = none ∧
    ((r.addClient c).1.removeClient c).2 = none ∧
    ((r.addClient c).1.removeClient c).1 = r := by
  have hadd : r.addClient c = ({ r with clients := r.clients ++ [c] }, none) := by
    unfold Room.addClient
    rw [if_neg]
    simpa using h
  have hmem : (r.clients ++ [c]).contains c = true := by simp
  refine ⟨by rw [hadd], ?_, ?_⟩ <;> rw [hadd] <;> unfold Room.removeClient <;>
    simp [hmem, removeFirst_append_self r.clients c h]

/-- C7 witness. -/
theorem claim_add_then_remove_witness :
    (newRoom.addClient ⟨0, "a"⟩).2 = none ∧
    ((newRoom.addClient ⟨0, "a"⟩).1.removeClient ⟨0, "a"⟩).2 = none ∧
    ((newRoom.addClient ⟨0, "a"⟩).1.removeClient ⟨0, "a"⟩).1 = newRoom :=
  claim_add_then_remove newRoom ⟨0, "a"⟩ (by decide)

/-- C8: `hasClientWithUsername` is true exactly when the username of
some current member equals the argument case-insensitively; after
adding a client named "Alice", `hasClientWithUsername("alice")` is true. -/
theorem claim_hasClientWithUsername :
    (∀ (r : Room) (u : String),
      (r.hasClientWithUsername u = true ↔
        ∃ c ∈ r.clients, jsToLower c.username = jsToLower u)) ∧
    (∀ (r : Room) (k : Nat),
      (r.addClient ⟨k, "Alice"⟩).1.hasClientWithUsername "alice" = true) := by
  have hgen : ∀ (r : Room) (u : String),
      (r.hasClientWithUsername u = true ↔
        ∃ c ∈ r.clients, jsToLower c.username = jsToLower u) := by
    intro r u
    simp [Room.hasClientWithUsername, Room.getClients, List.any_eq_true,
      beq_iff_eq]
  refine ⟨hgen, ?_⟩
  intro r k
  rw [hgen]
  unfold Room.addClient
  split_ifs with h
  · exact ⟨⟨k, "Alice"⟩, by simpa using h,
      show jsToLower "Alice" = jsToLower "alice" from by decide⟩
  · exact ⟨⟨k, "Alice"⟩, by simp,
      show jsToLower "Alice" = jsToLower "alice" from by decide⟩

/-- C10: `isValidVariableMap` accepts exactly the non-null values of
`typeof` "object"; in particular every array is accepted. -/
theorem claim_isValidVariableMap :
    (∀ x : JSValue,
      (isValidVariableMap x = true ↔ (x ≠ JSValue.null ∧ typeofStr x = "object"))) ∧
    (∀ k : Nat, isValidVariableMap (JSValue.array k) = true) := by
  constructor
  · intro x
    cases x <;> simp [isValidVariableMap, truthy, typeofStr] <;> decide
  · intro k
    rfl
